import Mathlib

/-!
Verification of the json2msgp converter.

This file gives a shallow embedding of the converter's source
(package json2msgp: stringHeuristic, convertMapStrStr, convertMapStrIntf,
convert, Convert, ConvertStream) together with the MessagePack primitive
writers it calls from tinylib/msgp (AppendString, AppendBytes,
AppendInt64, AppendUint64, AppendMapHeader, AppendArrayHeader, ...),
the standard-library helpers it calls (utf8.ValidString,
base64.StdEncoding.DecodeString / EncodeToString), and proves or refutes
the frozen claims about it.

Modelling choices:
- Go byte strings (string values fed to the heuristic) are `List Nat`
  (each element a byte value); Go's `string` can hold arbitrary bytes.
- Object keys and type-hint tags are Lean `String`s; the JSON parser
  only produces valid UTF-8 keys, on which Lean's code-point
  lexicographic order coincides with Go's byte-lexicographic `<`.
- JSON numbers (Go float64) are modelled as rationals: every finite
  double is a rational, and the conversions the code performs
  (truncation to int64, exact comparison of the cast with the original)
  are exact rational operations.  Conversions of out-of-range doubles to
  integers are implementation-dependent in Go; we model the amd64
  behaviour (truncation saturating to the Int64 minimum, narrower
  integer casts wrapping two's complement).
- The ndau address validator (package ndaumath/address) and the IEEE-754
  bit extraction used by AppendFloat32/AppendFloat64 are external
  collaborators that the spec scopes out; they are abstracted as the
  parameter structure `Externals`.
- Fallible Go functions returning (value, error) pairs are modelled with
  `Except`; a Go runtime fault (integer division by zero when a hint
  sequence is empty) is modelled by the distinguished error
  `ConvErr.modByZeroFault`.
-/

/-- Byte sequences (each entry is one byte value 0..255). -/
abbrev Bytes := List Nat

/-- Big-endian byte decomposition: the `w` bytes of `n`, most significant
first (as written by msgp's big-endian put functions). -/
def be (w n : Nat) : Bytes :=
  (List.range w).map (fun i => n / 256 ^ (w - 1 - i) % 256)

/-- Two's-complement wrap of an integer into `w` bits, read as unsigned
(the low `w` bits, as produced by Go's narrowing conversions to uintN). -/
def wrapU (w : Nat) (i : Int) : Nat := (i.emod (2 ^ w)).toNat

/-- Two's-complement wrap of an integer into `w` bits, read as signed
(as produced by Go's narrowing conversions to intN). -/
def wrapS (w : Nat) (i : Int) : Int :=
  (i + 2 ^ (w - 1)).emod (2 ^ w) - 2 ^ (w - 1)

/-- Truncation of a rational toward zero (the rounding Go uses when
converting float64 to an integer type). -/
def ratTrunc (x : ℚ) : Int := x.num.tdiv (x.den : Int)

/-- Go `int64(x)` for a float64 `x`, amd64 behaviour: truncate toward
zero; when the result does not fit int64 the CVTTSD2SI instruction
yields the Int64 minimum (the Go spec leaves this implementation
dependent). -/
def f2i64 (x : ℚ) : Int :=
  let t := ratTrunc x
  if -9223372036854775808 ≤ t ∧ t < 9223372036854775808 then t
  else -9223372036854775808

/-- Go `uint64(x)` for a float64 `x`, amd64 behaviour: exact for
truncations in the uint64 range, two's-complement wrap for negative
values; other out-of-range inputs are implementation dependent and
modelled by the same wrap. -/
def f2u64 (x : ℚ) : Nat :=
  let t := ratTrunc x
  if 0 ≤ t ∧ t < 18446744073709551616 then t.toNat
  else wrapU 64 (f2i64 x)

/-- msgp.AppendUint64: minimal-width canonical unsigned encoding
(positive fixint, uint8, uint16, uint32 or uint64 marker). -/
def appendUint64 (b : Bytes) (u : Nat) : Bytes :=
  if u ≤ 127 then b ++ [u]
  else if u ≤ 255 then b ++ [0xcc, u]
  else if u ≤ 65535 then b ++ 0xcd :: be 2 u
  else if u ≤ 4294967295 then b ++ 0xce :: be 4 u
  else b ++ 0xcf :: be 8 u

/-- msgp.AppendInt64: minimal-width canonical signed encoding
(fixint, int8, int16, int32 or int64 marker); negative payloads are the
two's-complement bytes. -/
def appendInt64 (b : Bytes) (i : Int) : Bytes :=
  if 0 ≤ i then
    if i ≤ 127 then b ++ [i.toNat]
    else if i ≤ 32767 then b ++ 0xd1 :: be 2 i.toNat
    else if i ≤ 2147483647 then b ++ 0xd2 :: be 4 i.toNat
    else b ++ 0xd3 :: be 8 i.toNat
  else
    if -32 ≤ i then b ++ [wrapU 8 i]
    else if -128 ≤ i then b ++ [0xd0, wrapU 8 i]
    else if -32768 ≤ i then b ++ 0xd1 :: be 2 (wrapU 16 i)
    else if -2147483648 ≤ i then b ++ 0xd2 :: be 4 (wrapU 32 i)
    else b ++ 0xd3 :: be 8 (wrapU 64 i)

/-- msgp string header for a payload of `n` bytes (fixstr, str8, str16
or str32). -/
def strHeader (n : Nat) : Bytes :=
  if n ≤ 31 then [0xa0 + n]
  else if n ≤ 255 then [0xd9, n]
  else if n ≤ 65535 then 0xda :: be 2 n
  else 0xdb :: be 4 n

/-- msgp.AppendString on a raw byte string: string header then the
bytes. -/
def appendStringBytes (b : Bytes) (s : Bytes) : Bytes :=
  b ++ strHeader s.length ++ s

/-- msgp.AppendBytes: bin header (bin8, bin16 or bin32) then the
bytes. -/
def appendBytesBin (b : Bytes) (s : Bytes) : Bytes :=
  b ++ (if s.length ≤ 255 then [0xc4, s.length]
        else if s.length ≤ 65535 then 0xc5 :: be 2 s.length
        else 0xc6 :: be 4 s.length) ++ s

/-- msgp.AppendMapHeader (fixmap, map16 or map32). -/
def appendMapHeader (b : Bytes) (n : Nat) : Bytes :=
  if n ≤ 15 then b ++ [0x80 + n]
  else if n ≤ 65535 then b ++ 0xde :: be 2 n
  else b ++ 0xdf :: be 4 n

/-- msgp.AppendArrayHeader (fixarray, array16 or array32). -/
def appendArrayHeader (b : Bytes) (n : Nat) : Bytes :=
  if n ≤ 15 then b ++ [0x90 + n]
  else if n ≤ 65535 then b ++ 0xdc :: be 2 n
  else b ++ 0xdd :: be 4 n

/-- UTF-8 encoding of a single code point. -/
def utf8EncodeCh (c : Nat) : Bytes :=
  if c < 0x80 then [c]
  else if c < 0x800 then [0xc0 + c / 64, 0x80 + c % 64]
  else if c < 0x10000 then [0xe0 + c / 4096, 0x80 + c / 64 % 64, 0x80 + c % 64]
  else [0xf0 + c / 262144, 0x80 + c / 4096 % 64, 0x80 + c / 64 % 64, 0x80 + c % 64]

/-- The UTF-8 bytes of a Lean string (used when emitting object keys,
which Go stores as UTF-8 bytes). -/
def strBytes (s : String) : Bytes :=
  (s.data.map Char.toNat).flatMap utf8EncodeCh

/-- msgp.AppendString on an object key. -/
def appendStringKey (b : Bytes) (k : String) : Bytes :=
  appendStringBytes b (strBytes k)

/-- Is the byte a UTF-8 continuation byte (0x80..0xBF)? -/
def utf8Cont (b : Nat) : Bool := 0x80 ≤ b && b ≤ 0xbf

/-- Go utf8.ValidString on raw bytes: strict RFC 3629 validation
(rejects overlong forms, surrogates, and code points above U+10FFFF),
matching Go's acceptRanges tables byte for byte. -/
def utf8ValidString : Bytes → Bool
  | [] => true
  | b0 :: rest =>
    if b0 ≤ 0x7f then utf8ValidString rest
    else if 0xc2 ≤ b0 && b0 ≤ 0xdf then
      match rest with
      | b1 :: r => utf8Cont b1 && utf8ValidString r
      | [] => false
    else if b0 = 0xe0 then
      match rest with
      | b1 :: b2 :: r => (0xa0 ≤ b1 && b1 ≤ 0xbf) && utf8Cont b2 && utf8ValidString r
      | _ => false
    else if (0xe1 ≤ b0 && b0 ≤ 0xec) || b0 = 0xee || b0 = 0xef then
      match rest with
      | b1 :: b2 :: r => utf8Cont b1 && utf8Cont b2 && utf8ValidString r
      | _ => false
    else if b0 = 0xed then
      match rest with
      | b1 :: b2 :: r => (0x80 ≤ b1 && b1 ≤ 0x9f) && utf8Cont b2 && utf8ValidString r
      | _ => false
    else if b0 = 0xf0 then
      match rest with
      | b1 :: b2 :: b3 :: r =>
          (0x90 ≤ b1 && b1 ≤ 0xbf) && utf8Cont b2 && utf8Cont b3 && utf8ValidString r
      | _ => false
    else if 0xf1 ≤ b0 && b0 ≤ 0xf3 then
      match rest with
      | b1 :: b2 :: b3 :: r =>
          utf8Cont b1 && utf8Cont b2 && utf8Cont b3 && utf8ValidString r
      | _ => false
    else if b0 = 0xf4 then
      match rest with
      | b1 :: b2 :: b3 :: r =>
          (0x80 ≤ b1 && b1 ≤ 0x8f) && utf8Cont b2 && utf8Cont b3 && utf8ValidString r
      | _ => false
    else false

/-- Decode one base64 character of the standard alphabet to its 6-bit
value ('A'..'Z', 'a'..'z', '0'..'9', '+', '/'). -/
def b64val (c : Nat) : Option Nat :=
  if 65 ≤ c ∧ c ≤ 90 then some (c - 65)
  else if 97 ≤ c ∧ c ≤ 122 then some (c - 97 + 26)
  else if 48 ≤ c ∧ c ≤ 57 then some (c - 48 + 52)
  else if c = 43 then some 62
  else if c = 47 then some 63
  else none

/-- Decode base64 text (newlines already removed) quantum by quantum,
as Go's base64 decodeQuantum does for a padded encoding: the length must
be a multiple of four, '=' may appear only as the final one or two
characters completing the last quantum, and trailing-bit canonicity is
NOT checked (Go's default StdEncoding is not strict). `none` models a
CorruptInputError. -/
def b64quanta : Bytes → Option Bytes
  | [] => some []
  | c0 :: c1 :: c2 :: c3 :: rest =>
    match b64val c0, b64val c1 with
    | some v0, some v1 =>
      if c2 = 61 then
        if c3 = 61 ∧ rest = [] then some [v0 * 4 + v1 / 16] else none
      else
        match b64val c2 with
        | some v2 =>
          if c3 = 61 then
            if rest = [] then some [v0 * 4 + v1 / 16, v1 % 16 * 16 + v2 / 4]
            else none
          else
            match b64val c3 with
            | some v3 =>
              (b64quanta rest).map
                (fun bs => (v0 * 4 + v1 / 16) :: (v1 % 16 * 16 + v2 / 4) :: (v2 % 4 * 64 + v3) :: bs)
            | none => none
        | none => none
    | _, _ => none
  | _ => none

/-- Go base64.StdEncoding.DecodeString: CR and LF bytes are ignored
wherever they occur, then the text is decoded in padded quanta. -/
def base64DecodeStd (s : Bytes) : Option Bytes :=
  b64quanta (s.filter (fun c => c != 13 && c != 10))

/-- Encode a 6-bit value as a standard-alphabet base64 character. -/
def b64char (v : Nat) : Nat :=
  if v < 26 then 65 + v
  else if v < 52 then 97 + v - 26
  else if v < 62 then 48 + v - 52
  else if v = 62 then 43
  else 47

/-- Go base64.StdEncoding.EncodeToString: canonical padded encoding
(zero trailing bits, '=' padding to a multiple of four characters). -/
def base64EncodeStd : Bytes → Bytes
  | [] => []
  | [b0] => [b64char (b0 / 4), b64char (b0 % 4 * 16), 61, 61]
  | [b0, b1] => [b64char (b0 / 4), b64char (b0 % 4 * 16 + b1 / 16), b64char (b1 % 16 * 4), 61]
  | b0 :: b1 :: b2 :: rest =>
    b64char (b0 / 4) :: b64char (b0 % 4 * 16 + b1 / 16) ::
      b64char (b1 % 16 * 4 + b2 / 64) :: b64char (b2 % 64) :: base64EncodeStd rest

/-- External collaborators, abstracted per the spec's interface
boundary: the ndau address validator (address.Validate succeeding is
`validID = true`), and the IEEE-754 payload bytes written by
msgp.AppendFloat32 / msgp.AppendFloat64 (including Go's float64-to-
float32 narrowing for the former). -/
structure Externals where
  validID : Bytes → Bool
  f32bits : ℚ → Bytes
  f64bits : ℚ → Bytes

/-- Converter.stringHeuristic: non-UTF-8 strings pass through as byte
blobs; valid ndau addresses stay strings; valid standard padded base64
is decoded to a byte blob; anything else stays a string. -/
def stringHeuristic (ext : Externals) (s : Bytes) (buffer : Bytes) : Bytes :=
  if ¬ utf8ValidString s then appendBytesBin buffer s
  else if ext.validID s then appendStringBytes buffer s
  else
    match base64DecodeStd s with
    | some b64bytes => appendBytesBin buffer b64bytes
    | none => appendStringBytes buffer s

/-- The generic JSON value tree Go's json.Unmarshal produces
(interface{} holding nil / bool / float64 / string / []interface{} /
map[string]interface{}), plus map[string]string which Convert also
accepts directly.  Object entries are listed in the map's (arbitrary)
iteration order. -/
inductive Value where
  | null
  | bool (b : Bool)
  | num (x : ℚ)
  | str (s : Bytes)
  | arr (vs : List Value)
  | obj (entries : List (String × Value))
  | strMap (entries : List (String × Bytes))

/-- The Converter's mutable state: the key currently being processed
and the positional hint counter. -/
structure CState where
  currentKey : String
  currentHint : Nat
deriving DecidableEq

/-- The typeHints map (Go map[string][]string; a nil map behaves like
an empty one for lookup purposes). -/
abbrev Hints := List (String × List String)

/-- Conversion errors.  `unsupportedTypeHint` and
`unsupportedNumericValue` model the two fmt.Errorf returns;
`modByZeroFault` models the Go runtime fault raised by the expression
currentHint % len(typeHint) when the hint sequence is empty. -/
inductive ConvErr where
  | unsupportedTypeHint (key tag : String)
  | unsupportedNumericValue (x : ℚ)
  | modByZeroFault
deriving DecidableEq

/-- Decidable equality of Except results (needed to evaluate concrete
conversion outcomes with the kernel). -/
instance {ε α : Type} [DecidableEq ε] [DecidableEq α] : DecidableEq (Except ε α) := fun x y =>
  match x, y with
  | .ok a, .ok b => decidable_of_iff (a = b) (by simp)
  | .error a, .error b => decidable_of_iff (a = b) (by simp)
  | .ok _, .error _ => isFalse (by simp)
  | .error _, .ok _ => isFalse (by simp)

/-- Key comparison used by the sort in convertMapStrStr and
convertMapStrIntf (Go: keys[i] < keys[j] on strings). -/
def keyLe {β : Type} (a b : String × β) : Prop := a.1 ≤ b.1

instance {β : Type} : DecidableRel (keyLe (β := β)) :=
  fun a b => inferInstanceAs (Decidable (a.1 ≤ b.1))

instance {β : Type} : IsTotal (String × β) keyLe := ⟨fun a b => le_total a.1 b.1⟩

instance {β : Type} : IsTrans (String × β) keyLe := ⟨fun _ _ _ h h' => le_trans h h'⟩

/-- The empty string: Go's zero value for the current key, and the
default used when reading from a hint sequence. -/
def noTag : String := ""

/-- The valid type-hint tags enumerated by the switch in
Converter.convert. -/
def validTags : List String :=
  ["byte", "float32", "float64", "int", "int8", "int16", "int32", "int64",
   "uint", "uint8", "uint16", "uint32", "uint64"]

/-- The integer type-hint tags (all the valid tags except the two float
tags). -/
def intHintTags : List String :=
  ["byte", "int", "int8", "int16", "int32", "int64",
   "uint", "uint8", "uint16", "uint32", "uint64"]

/-- The float32 tag. -/
def tagFloat32 : String := "float32"

/-- The float64 tag. -/
def tagFloat64 : String := "float64"

/-- The switch on the selected type hint in Converter.convert's float64
case: each enumerated tag casts the value to the hinted Go type and
appends it with the matching msgp Append function (AppendByte and the
fixed-width integer Appends all delegate to AppendInt64/AppendUint64 in
tinylib/msgp; AppendFloat32/AppendFloat64 write a ca/cb marker and the
IEEE-754 payload); an unrecognized tag is the fmt.Errorf
"Unsupported numeric type hint" return. -/
def encodeHinted (ext : Externals) (key tag : String) (x : ℚ) (b : Bytes) : Except ConvErr Bytes :=
  match tag with
  | "byte" => .ok (appendUint64 b (wrapU 8 (f2i64 x)))
  | "float32" => .ok (b ++ 0xca :: ext.f32bits x)
  | "float64" => .ok (b ++ 0xcb :: ext.f64bits x)
  | "int" => .ok (appendInt64 b (f2i64 x))
  | "int8" => .ok (appendInt64 b (wrapS 8 (f2i64 x)))
  | "int16" => .ok (appendInt64 b (wrapS 16 (f2i64 x)))
  | "int32" => .ok (appendInt64 b (wrapS 32 (f2i64 x)))
  | "int64" => .ok (appendInt64 b (f2i64 x))
  | "uint" => .ok (appendUint64 b (f2u64 x))
  | "uint8" => .ok (appendUint64 b (wrapU 8 (f2i64 x)))
  | "uint16" => .ok (appendUint64 b (wrapU 16 (f2i64 x)))
  | "uint32" => .ok (appendUint64 b (wrapU 32 (f2i64 x)))
  | "uint64" => .ok (appendUint64 b (f2u64 x))
  | _ => .error (.unsupportedTypeHint key tag)

/-- Converter.convertMapStrStr: map header, keys sorted, each key
emitted as a string, currentKey set, value classified by the string
heuristic.  This path cannot fail. -/
def convertMapStrStr (ext : Externals) (m : List (String × Bytes)) (st : CState) (b : Bytes) :
    Bytes × CState :=
  (List.insertionSort keyLe m).foldl
    (fun acc e =>
      (stringHeuristic ext e.2 (appendStringKey acc.1 e.1),
       { acc.2 with currentKey := e.1 }))
    (appendMapHeader b m.length, st)

mutual

/-- Converter.convert: dispatch on the dynamic type of the value.
Strings go to the heuristic; objects and string maps emit sorted-key
maps; arrays reset the positional hint counter, then convert elements
in order, incrementing the counter after each; numbers consult the hint
table under the current key and otherwise must be losslessly
representable as int64. -/
def convertV (ext : Externals) (hints : Hints) : Value → CState → Bytes → Except ConvErr (Bytes × CState)
  | .str s, st, b => .ok (stringHeuristic ext s b, st)
  | .obj m, st, b =>
      convertEntries ext hints (List.insertionSort keyLe m) st (appendMapHeader b m.length)
  | .strMap m, st, b => .ok (convertMapStrStr ext m st b)
  | .arr vs, st, b =>
      convertArr ext hints vs { st with currentHint := 0 } (appendArrayHeader b vs.length)
  | .num x, st, b =>
      match List.lookup st.currentKey hints with
      | some typeHint =>
        if h : typeHint.length = 0 then .error .modByZeroFault
        else
          match encodeHinted ext st.currentKey
              (typeHint.get ⟨st.currentHint % typeHint.length,
                Nat.mod_lt _ (Nat.pos_of_ne_zero h)⟩) x b with
          | .ok b' => .ok (b', st)
          | .error e => .error e
      | none =>
        let i := f2i64 x
        if (i : ℚ) = x then .ok (appendInt64 b i, st)
        else .error (.unsupportedNumericValue x)
  | .null, st, b => .ok (b ++ [0xc0], st)
  | .bool v, st, b => .ok (b ++ [if v then 0xc3 else 0xc2], st)
termination_by v _ _ => sizeOf v
decreasing_by
  all_goals simp_wf
  all_goals rw [(List.perm_insertionSort keyLe m).sizeOf_eq_sizeOf]
  all_goals omega

/-- The element loop of Converter.convert's []interface{} case: convert
each element, abort on the first error, increment currentHint after
each element. -/
def convertArr (ext : Externals) (hints : Hints) :
    List Value → CState → Bytes → Except ConvErr (Bytes × CState)
  | [], st, b => .ok (b, st)
  | v :: rest, st, b =>
      match convertV ext hints v st b with
      | .error e => .error e
      | .ok (b', st') =>
          convertArr ext hints rest { st' with currentHint := st'.currentHint + 1 } b'
termination_by vs _ _ => sizeOf vs
decreasing_by
  all_goals simp_wf
  all_goals omega

/-- The entry loop of Converter.convertMapStrIntf over the sorted
entries: emit the key, set currentKey, convert the value, abort on the
first error. -/
def convertEntries (ext : Externals) (hints : Hints) :
    List (String × Value) → CState → Bytes → Except ConvErr (Bytes × CState)
  | [], st, b => .ok (b, st)
  | (k, v) :: rest, st, b =>
      match convertV ext hints v { st with currentKey := k } (appendStringKey b k) with
      | .error e => .error e
      | .ok (b', st') => convertEntries ext hints rest st' b'
termination_by m _ _ => sizeOf m
decreasing_by
  all_goals simp_wf
  all_goals omega

end

/-- Converter.convertMapStrIntf: map header, entries sorted by key,
then the entry loop. -/
def convertMapStrIntf (ext : Externals) (hints : Hints) (m : List (String × Value))
    (st : CState) (b : Bytes) : Except ConvErr (Bytes × CState) :=
  convertEntries ext hints (List.insertionSort keyLe m) st (appendMapHeader b m.length)

/-- Convert: fresh Converter (currentKey empty, currentHint zero),
empty buffer; returns the bytes or the first error. -/
def Convert (ext : Externals) (hints : Hints) (v : Value) : Except ConvErr Bytes :=
  match convertV ext hints v ⟨noTag, 0⟩ [] with
  | .ok (b, _) => .ok b
  | .error e => .error e

/-- ConvertStream error outcomes: a wrapped read error, a wrapped
json.Unmarshal error, or a conversion error passed through. -/
inductive StreamErr where
  | readErr
  | parseErr
  | convErr (e : ConvErr)
deriving DecidableEq

/-- ConvertStream: read everything (readResult models the outcome of
buffer.ReadFrom), parse it with the external JSON parser (parseJSON
models json.Unmarshal), convert in memory, and only then perform the
single out.Write.  The first component is the trace of Write calls made
on the output stream. -/
def ConvertStream (ext : Externals) (hints : Hints)
    (parseJSON : Bytes → Except Unit Value)
    (readResult : Except Unit Bytes) : List Bytes × Option StreamErr :=
  match readResult with
  | .error _ => ([], some .readErr)
  | .ok bs =>
    match parseJSON bs with
    | .error _ => ([], some .parseErr)
    | .ok jsobj =>
      match Convert ext hints jsobj with
      | .error e => ([], some (.convErr e))
      | .ok out => ([out], none)

/-- Reference fold for a run of hinted numeric array elements starting
at position counter `i`: element `j` of the run is encoded with the tag
at index (i + j) mod length(seq) of the hint sequence. -/
def hintedSeqRun (ext : Externals) (key : String) (seq : List String) :
    List ℚ → Nat → Bytes → Except ConvErr Bytes
  | [], _, b => .ok b
  | x :: rest, i, b =>
    match encodeHinted ext key (seq.getD (i % seq.length) noTag) x b with
    | .error e => .error e
    | .ok b' => hintedSeqRun ext key seq rest (i + 1) b'

/-- A concrete external-collaborator instantiation whose identifier
validator rejects everything (used for concrete witnesses). -/
def extNone : Externals := ⟨fun _ => false, fun _ => [], fun _ => []⟩

/-- A concrete external-collaborator instantiation whose identifier
validator accepts everything (used to witness the identifier tie-break). -/
def extAll : Externals := ⟨fun _ => true, fun _ => [], fun _ => []⟩

/-- Equation: converting a string leaf. -/
theorem convertV_str_eq (ext : Externals) (hints : Hints) (s : Bytes) (st : CState) (b : Bytes) :
    convertV ext hints (.str s) st b = .ok (stringHeuristic ext s b, st) := by
  simp [convertV]

/-- Equation: converting an object. -/
theorem convertV_obj_eq (ext : Externals) (hints : Hints) (m : List (String × Value))
    (st : CState) (b : Bytes) :
    convertV ext hints (.obj m) st b
      = convertEntries ext hints (List.insertionSort keyLe m) st (appendMapHeader b m.length) := by
  simp [convertV]

/-- Equation: converting a string map. -/
theorem convertV_strMap_eq (ext : Externals) (hints : Hints) (m : List (String × Bytes))
    (st : CState) (b : Bytes) :
    convertV ext hints (.strMap m) st b = .ok (convertMapStrStr ext m st b) := by
  simp [convertV]

/-- Equation: converting an array resets the positional counter to zero
before the element loop. -/
theorem convertV_arr_eq (ext : Externals) (hints : Hints) (vs : List Value)
    (k : String) (h0 : Nat) (b : Bytes) :
    convertV ext hints (.arr vs) ⟨k, h0⟩ b
      = convertArr ext hints vs ⟨k, 0⟩ (appendArrayHeader b vs.length) := by
  simp [convertV]

/-- Equation: converting null (via the reflective AppendIntf fallback). -/
theorem convertV_null_eq (ext : Externals) (hints : Hints) (st : CState) (b : Bytes) :
    convertV ext hints .null st b = .ok (b ++ [0xc0], st) := by
  simp [convertV]

/-- Equation: converting a boolean. -/
theorem convertV_bool_eq (ext : Externals) (hints : Hints) (v : Bool) (st : CState) (b : Bytes) :
    convertV ext hints (.bool v) st b = .ok (b ++ [if v then 0xc3 else 0xc2], st) := by
  simp [convertV]

/-- Equation: converting a number when the hint lookup finds a
non-empty sequence for the current key. -/
theorem convertV_num_hint_eq (ext : Externals) (hints : Hints) (x : ℚ) (st : CState) (b : Bytes)
    (seq : List String) (hlk : List.lookup st.currentKey hints = some seq)
    (hne : ¬ seq.length = 0) :
    convertV ext hints (.num x) st b
      = match encodeHinted ext st.currentKey
            (seq.getD (st.currentHint % seq.length) noTag) x b with
        | .ok b' => .ok (b', st)
        | .error e => .error e := by
  have hget : seq.get ⟨st.currentHint % seq.length, Nat.mod_lt _ (Nat.pos_of_ne_zero hne)⟩
      = seq.getD (st.currentHint % seq.length) noTag := by
    rw [List.get_eq_getElem, List.getD_eq_getElem]
  simp only [convertV, hlk, dif_neg hne, hget]

/-- Equation: converting a number when the hint lookup finds an empty
sequence (the Go code then evaluates currentHint % 0, a runtime fault). -/
theorem convertV_num_fault_eq (ext : Externals) (hints : Hints) (x : ℚ) (st : CState) (b : Bytes)
    (hlk : List.lookup st.currentKey hints = some []) :
    convertV ext hints (.num x) st b = .error .modByZeroFault := by
  simp [convertV, hlk]

/-- Equation: converting a number when no hint applies. -/
theorem convertV_num_nohint_eq (ext : Externals) (hints : Hints) (x : ℚ) (st : CState) (b : Bytes)
    (hlk : List.lookup st.currentKey hints = none) :
    convertV ext hints (.num x) st b
      = if (f2i64 x : ℚ) = x then .ok (appendInt64 b (f2i64 x), st)
        else .error (.unsupportedNumericValue x) := by
  simp only [convertV, hlk]

/-- Equation: the element loop on the empty list. -/
theorem convertArr_nil_eq (ext : Externals) (hints : Hints) (st : CState) (b : Bytes) :
    convertArr ext hints [] st b = .ok (b, st) := by
  simp [convertArr]

/-- Equation: the element loop converts the head, then the tail with the
counter incremented, aborting on the head's error. -/
theorem convertArr_cons_eq (ext : Externals) (hints : Hints) (v : Value) (rest : List Value)
    (st : CState) (b : Bytes) :
    convertArr ext hints (v :: rest) st b
      = match convertV ext hints v st b with
        | .error e => .error e
        | .ok (b', st') =>
            convertArr ext hints rest ⟨st'.currentKey, st'.currentHint + 1⟩ b' := by
  simp [convertArr]

/-- Equation: the entry loop on the empty list. -/
theorem convertEntries_nil_eq (ext : Externals) (hints : Hints) (st : CState) (b : Bytes) :
    convertEntries ext hints [] st b = .ok (b, st) := by
  simp [convertEntries]

/-- Equation: the entry loop emits the key, sets currentKey, converts
the value, aborting on its error. -/
theorem convertEntries_cons_eq (ext : Externals) (hints : Hints) (k : String) (v : Value)
    (rest : List (String × Value)) (st : CState) (b : Bytes) :
    convertEntries ext hints ((k, v) :: rest) st b
      = match convertV ext hints v ⟨k, st.currentHint⟩ (appendStringKey b k) with
        | .error e => .error e
        | .ok (b', st') => convertEntries ext hints rest st' b' := by
  simp [convertEntries]

/-- A successful assoc-list lookup produces an entry of the list. -/
theorem lookup_mem {β : Type} (a : String) (v : β) :
    ∀ l : List (String × β), List.lookup a l = some v → (a, v) ∈ l := by
  intro l
  induction l with
  | nil => intro h; simp [List.lookup] at h
  | cons e rest ih =>
    intro h
    rw [List.lookup] at h
    by_cases he : a == e.1
    · simp only [he] at h
      have : v = e.2 := by
        cases h; rfl
      rw [this, show e = (e.1, e.2) from rfl, show a = e.1 from by
        exact eq_of_beq he]
      exact List.mem_cons_self _ _
    · simp only [Bool.not_eq_true] at he
      rw [he] at h
      exact List.mem_cons_of_mem _ (ih h)

/-- The element loop on a list of numeric leaves, with a hint sequence
installed for the current key, encodes element `j` with tag index
(i + j) mod length(seq) and leaves the counter advanced by the number
of elements. -/
theorem convertArr_nums (ext : Externals) (hints : Hints) (key : String) (seq : List String)
    (hlk : List.lookup key hints = some seq) (hne : ¬ seq.length = 0) :
    ∀ (xs : List ℚ) (i : Nat) (b : Bytes),
      convertArr ext hints (xs.map Value.num) ⟨key, i⟩ b
        = match hintedSeqRun ext key seq xs i b with
          | .ok b' => .ok (b', ⟨key, i + xs.length⟩)
          | .error e => .error e := by
  intro xs
  induction xs with
  | nil => intro i b; simp [convertArr, hintedSeqRun]
  | cons x rest ih =>
    intro i b
    rw [List.map_cons, convertArr_cons_eq,
      convertV_num_hint_eq ext hints x ⟨key, i⟩ b seq hlk hne]
    simp only [hintedSeqRun]
    cases h : encodeHinted ext key (seq.getD (i % seq.length) noTag) x b with
    | error e => simp [h]
    | ok b' =>
      simp only [h, ih (i + 1) b']
      have harith : i + 1 + rest.length = i + (rest.length + 1) := by omega
      simp [harith]

/-- Claim C1: the string heuristic classifies with a fixed
first-match-wins order: non-UTF-8 strings become byte blobs of their raw
bytes; otherwise a string passing the external identifier validator is
emitted as a string even when it is also decodable as base64 (the
quantification over every validator result shows the base64 test is
never consulted); otherwise valid standard padded base64 becomes the
decoded byte blob; otherwise the string is emitted as a string.  The
function is total: every string yields one of the two leaf kinds. -/
theorem stringHeuristic_first_match_total (ext : Externals) (s buffer : Bytes) :
    (utf8ValidString s = false → stringHeuristic ext s buffer = appendBytesBin buffer s) ∧
    (utf8ValidString s = true → ext.validID s = true →
      stringHeuristic ext s buffer = appendStringBytes buffer s) ∧
    (∀ bs, utf8ValidString s = true → ext.validID s = false → base64DecodeStd s = some bs →
      stringHeuristic ext s buffer = appendBytesBin buffer bs) ∧
    (utf8ValidString s = true → ext.validID s = false → base64DecodeStd s = none →
      stringHeuristic ext s buffer = appendStringBytes buffer s) ∧
    ((∃ bs, stringHeuristic ext s buffer = appendBytesBin buffer bs) ∨
      stringHeuristic ext s buffer = appendStringBytes buffer s) := by
  refine ⟨fun h => by simp [stringHeuristic, h],
          fun h1 h2 => by simp [stringHeuristic, h1, h2],
          fun bs h1 h2 h3 => by simp [stringHeuristic, h1, h2, h3],
          fun h1 h2 h3 => by simp [stringHeuristic, h1, h2, h3], ?_⟩
  by_cases hu : utf8ValidString s
  · by_cases hv : ext.validID s
    · right; simp [stringHeuristic, hu, hv]
    · cases hb : base64DecodeStd s with
      | some bs => exact Or.inl ⟨bs, by simp [stringHeuristic, hu, hv, hb]⟩
      | none => right; simp [stringHeuristic, hu, hv, hb]
  · exact Or.inl ⟨s, by simp [stringHeuristic, hu]⟩

/-- Witness for C1 at concrete inputs: the invalid-UTF-8 string
[0xff, 0x00] blobs unchanged; the base64-decodable string "DwA="
stays a string when the identifier validator accepts it (the tie), and
decodes to the blob [0x0f, 0x00] when it rejects it; "foo" is neither
and stays a string. -/
theorem stringHeuristic_first_match_total_witness :
    (utf8ValidString [0xff, 0x00] = false ∧
      stringHeuristic extNone [0xff, 0x00] [] = appendBytesBin [] [0xff, 0x00]) ∧
    (base64DecodeStd [68, 119, 65, 61] = some [0x0f, 0x00] ∧
      stringHeuristic extAll [68, 119, 65, 61] [] = appendStringBytes [] [68, 119, 65, 61]) ∧
    (stringHeuristic extNone [68, 119, 65, 61] [] = appendBytesBin [] [0x0f, 0x00]) ∧
    (stringHeuristic extNone [102, 111, 111] [] = appendStringBytes [] [102, 111, 111]) :=
  ⟨⟨by decide, (stringHeuristic_first_match_total extNone [0xff, 0x00] []).1 (by decide)⟩,
   ⟨by decide, (stringHeuristic_first_match_total extAll [68, 119, 65, 61] []).2.1
      (by decide) (by decide)⟩,
   (stringHeuristic_first_match_total extNone [68, 119, 65, 61] []).2.2.1 [0x0f, 0x00]
      (by decide) (by decide) (by decide),
   (stringHeuristic_first_match_total extNone [102, 111, 111] []).2.2.2.1
      (by decide) (by decide) (by decide)⟩

/-- Claim C2: with no applicable hint, a numeric leaf is encoded as a
signed 64-bit integer exactly when the int64 cast converted back equals
the value; otherwise (in particular whenever the value has a nonzero
fractional part) conversion fails with UnsupportedNumericValue naming
the value — there is no floating-point fallback. -/
theorem numeric_no_hint_lossless_int64 (ext : Externals) (hints : Hints) (x : ℚ)
    (st : CState) (b : Bytes)
    (hno : List.lookup st.currentKey hints = none) :
    ((f2i64 x : ℚ) = x →
      convertV ext hints (.num x) st b = .ok (appendInt64 b (f2i64 x), st)) ∧
    ((f2i64 x : ℚ) ≠ x →
      convertV ext hints (.num x) st b = .error (.unsupportedNumericValue x)) ∧
    (x.den ≠ 1 →
      convertV ext hints (.num x) st b = .error (.unsupportedNumericValue x)) := by
  refine ⟨fun h => by rw [convertV_num_nohint_eq ext hints x st b hno, if_pos h],
          fun h => by rw [convertV_num_nohint_eq ext hints x st b hno, if_neg h],
          fun hden => ?_⟩
  have h : (f2i64 x : ℚ) ≠ x := fun hc => hden (by rw [← hc]; exact Rat.den_intCast _)
  rw [convertV_num_nohint_eq ext hints x st b hno, if_neg h]

/-- Witness for C2: with an empty hint table, 7 is losslessly castable
and encodes as the int64 encoding of 7 (the positive fixint 0x07), while
1/2 (fractional part present) fails with UnsupportedNumericValue. -/
theorem numeric_no_hint_lossless_int64_witness :
    (convertV extNone [] (.num 7) ⟨noTag, 0⟩ [] = .ok (appendInt64 [] (f2i64 7), ⟨noTag, 0⟩)) ∧
    ((mkRat 1 2).den ≠ 1 ∧
      convertV extNone [] (.num (mkRat 1 2)) ⟨noTag, 0⟩ []
        = .error (.unsupportedNumericValue (mkRat 1 2))) :=
  ⟨(numeric_no_hint_lossless_int64 extNone [] 7 ⟨noTag, 0⟩ [] rfl).1 (by decide),
   ⟨by decide,
    (numeric_no_hint_lossless_int64 extNone [] (mkRat 1 2) ⟨noTag, 0⟩ [] rfl).2.2 (by decide)⟩⟩

/-- Claim C3: with a hint sequence installed for the current key, a
numeric array element is encoded with tag sequence[currentHint mod
length(sequence)], where the counter is reset to 0 on entering any
array (the reset is visible in the statement: the run starts at index 0
whatever counter value the state held before the array) and incremented
after each element; in particular converting [[7776000000000,
10000000000]] under hints {"": ["int64", "uint64"]} encodes the first
inner element as a signed 64-bit integer (0xd3) and the second as an
unsigned 64-bit integer (0xcf), the inner (innermost) array's counter
governing the selection. -/
theorem cyclic_positional_hints (ext : Externals) (hints : Hints) (key : String)
    (seq : List String) (hlk : List.lookup key hints = some seq) (hne : ¬ seq.length = 0) :
    (∀ (xs : List ℚ) (hint0 : Nat) (b : Bytes),
      convertV ext hints (.arr (xs.map Value.num)) ⟨key, hint0⟩ b
        = match hintedSeqRun ext key seq xs 0 (appendArrayHeader b xs.length) with
          | .ok b' => .ok (b', ⟨key, xs.length⟩)
          | .error e => .error e) ∧
    (Convert extNone [(noTag, ["int64", "uint64"])]
        (.arr [.arr [.num 7776000000000, .num 10000000000]])
      = .ok [0x91, 0x92, 0xd3, 0x00, 0x00, 0x07, 0x12, 0x7d, 0xb7, 0xc0, 0x00,
             0xcf, 0x00, 0x00, 0x00, 0x02, 0x54, 0x0b, 0xe4, 0x00]) := by
  constructor
  · intro xs hint0 b
    rw [convertV_arr_eq,
      convertArr_nums ext hints key seq hlk hne xs 0 (appendArrayHeader b (xs.map Value.num).length)]
    simp
  · have hconc : convertV extNone [(noTag, ["int64", "uint64"])]
        (.arr (List.map Value.num [7776000000000, 10000000000])) ⟨noTag, 0⟩ [0x91]
        = match hintedSeqRun extNone noTag ["int64", "uint64"]
              [7776000000000, 10000000000] 0
              (appendArrayHeader [0x91] (List.map Value.num
                [(7776000000000 : ℚ), 10000000000]).length) with
          | .ok b' => .ok (b', ⟨noTag, (List.map Value.num
                [(7776000000000 : ℚ), 10000000000]).length⟩)
          | .error e => .error e := by
      rw [convertV_arr_eq,
        convertArr_nums extNone [(noTag, ["int64", "uint64"])] noTag ["int64", "uint64"]
          (by decide) (by decide) [7776000000000, 10000000000] 0 _]
      simp
    have hrun : hintedSeqRun extNone noTag ["int64", "uint64"]
        [7776000000000, 10000000000] 0 [0x91, 0x92]
        = .ok [0x91, 0x92, 0xd3, 0x00, 0x00, 0x07, 0x12, 0x7d, 0xb7, 0xc0, 0x00,
               0xcf, 0x00, 0x00, 0x00, 0x02, 0x54, 0x0b, 0xe4, 0x00] := by decide
    rw [Convert.eq_def, convertV_arr_eq]
    rw [show appendArrayHeader []
        [Value.arr [Value.num 7776000000000, Value.num 10000000000]].length
        = [0x91] from by decide]
    rw [convertArr_cons_eq]
    rw [show (Value.arr [Value.num 7776000000000, Value.num 10000000000] : Value)
        = Value.arr (List.map Value.num [7776000000000, 10000000000]) from rfl]
    rw [hconc]
    rw [show appendArrayHeader [0x91] (List.map Value.num
        [(7776000000000 : ℚ), 10000000000]).length = [0x91, 0x92] from by decide]
    simp only [hrun, convertArr_nil_eq]

/-- Witness for C3: the theorem applied at the concrete hint table of
the round-trip scenario yields the expected bytes. -/
theorem cyclic_positional_hints_witness :
    Convert extNone [(noTag, ["int64", "uint64"])]
        (.arr [.arr [.num 7776000000000, .num 10000000000]])
      = .ok [0x91, 0x92, 0xd3, 0x00, 0x00, 0x07, 0x12, 0x7d, 0xb7, 0xc0, 0x00,
             0xcf, 0x00, 0x00, 0x00, 0x02, 0x54, 0x0b, 0xe4, 0x00] :=
  (cyclic_positional_hints extNone [(noTag, ["int64", "uint64"])] noTag ["int64", "uint64"]
      (by decide) (by decide)).2

/-- Two lists of keyed entries that are permutations of each other, have
no duplicate keys, and are both sorted by key, are equal. -/
theorem perm_sorted_keys_eq {β : Type} :
    ∀ l₁ l₂ : List (String × β), l₁.Perm l₂ → (l₁.map Prod.fst).Nodup →
      l₁.Sorted keyLe → l₂.Sorted keyLe → l₁ = l₂ := by
  intro l₁
  induction l₁ with
  | nil => intro l₂ hp _ _ _; exact hp.nil_eq
  | cons a t₁ ih =>
    intro l₂ hp hn hs₁ hs₂
    cases l₂ with
    | nil => exact absurd hp.eq_nil (by simp)
    | cons bb t₂ =>
      by_cases hab : a = bb
      · subst hab
        have ht : t₁.Perm t₂ := hp.cons_inv
        have htl : t₁ = t₂ :=
          ih t₂ ht (List.nodup_cons.mp (by simpa using hn)).2
            hs₁.of_cons hs₂.of_cons
        rw [htl]
      · exfalso
        have ha2 : a ∈ t₂ := by
          rcases List.mem_cons.mp (hp.mem_iff.mp (List.mem_cons_self a t₁)) with h | h
          · exact absurd h hab
          · exact h
        have hb1 : bb ∈ t₁ := by
          rcases List.mem_cons.mp (hp.symm.mem_iff.mp (List.mem_cons_self bb t₂)) with h | h
          · exact absurd h.symm hab
          · exact h
        have h1 : a.1 ≤ bb.1 := (List.sorted_cons.mp hs₁).1 bb hb1
        have h2 : bb.1 ≤ a.1 := (List.sorted_cons.mp hs₂).1 a ha2
        have hkey : bb.1 = a.1 := le_antisymm h2 h1
        have hn₂ : ((bb :: t₂).map Prod.fst).Nodup := (hp.map Prod.fst).nodup_iff.mp hn
        rw [List.map_cons] at hn₂
        have hnot : bb.1 ∉ t₂.map Prod.fst := (List.nodup_cons.mp hn₂).1
        exact hnot (hkey ▸ List.mem_map_of_mem Prod.fst ha2)

/-- Sorting by key is insensitive to the input's order when the keys
are distinct. -/
theorem insertionSort_eq_of_perm {β : Type} (l₁ l₂ : List (String × β)) (hp : l₁.Perm l₂)
    (hn : (l₁.map Prod.fst).Nodup) :
    List.insertionSort keyLe l₁ = List.insertionSort keyLe l₂ := by
  refine perm_sorted_keys_eq _ _
    ((List.perm_insertionSort keyLe l₁).trans (hp.trans (List.perm_insertionSort keyLe l₂).symm))
    ?_ (List.sorted_insertionSort keyLe l₁) (List.sorted_insertionSort keyLe l₂)
  exact (((List.perm_insertionSort keyLe l₁).map Prod.fst).nodup_iff).mpr hn

/-- Claim C4: object encoding does not depend on the map's iteration
order: logically equal objects (same entries, any order, keys distinct)
produce byte-identical output, because entries are sorted by key before
emission. -/
theorem object_key_order_independent (ext : Externals) (hints : Hints)
    (l₁ l₂ : List (String × Value)) (st : CState) (b : Bytes)
    (hp : l₁.Perm l₂) (hn : (l₁.map Prod.fst).Nodup) :
    convertV ext hints (.obj l₁) st b = convertV ext hints (.obj l₂) st b := by
  rw [convertV_obj_eq, convertV_obj_eq, insertionSort_eq_of_perm l₁ l₂ hp hn, hp.length_eq]

/-- Witness for C4: the two orderings of {"a": true, "b": null} convert
to the same bytes. -/
theorem object_key_order_independent_witness :
    convertV extNone [] (.obj [("b", .null), ("a", .bool true)]) ⟨noTag, 0⟩ []
      = convertV extNone [] (.obj [("a", .bool true), ("b", .null)]) ⟨noTag, 0⟩ [] :=
  object_key_order_independent extNone [] _ _ ⟨noTag, 0⟩ []
    (List.Perm.swap ("a", Value.bool true) ("b", Value.null) []) (by decide)

/-- The element loop over an appended list runs the first part, then the
second from the resulting state, aborting if the first part errors. -/
theorem convertArr_append (ext : Externals) (hints : Hints) (l₁ l₂ : List Value) :
    ∀ (st : CState) (b : Bytes),
      convertArr ext hints (l₁ ++ l₂) st b
        = match convertArr ext hints l₁ st b with
          | .ok (b', st') => convertArr ext hints l₂ st' b'
          | .error e => .error e := by
  induction l₁ with
  | nil => intro st b; simp [convertArr_nil_eq]
  | cons v rest ih =>
    intro st b
    rw [List.cons_append, convertArr_cons_eq, convertArr_cons_eq]
    cases h : convertV ext hints v st b with
    | error e => simp
    | ok p => simp [ih]

/-- The entry loop over an appended list runs the first part, then the
second from the resulting state, aborting if the first part errors. -/
theorem convertEntries_append (ext : Externals) (hints : Hints)
    (l₁ l₂ : List (String × Value)) :
    ∀ (st : CState) (b : Bytes),
      convertEntries ext hints (l₁ ++ l₂) st b
        = match convertEntries ext hints l₁ st b with
          | .ok (b', st') => convertEntries ext hints l₂ st' b'
          | .error e => .error e := by
  induction l₁ with
  | nil => intro st b; simp [convertEntries_nil_eq]
  | cons e rest ih =>
    intro st b
    rw [List.cons_append, show e = (e.1, e.2) from rfl, convertEntries_cons_eq,
      convertEntries_cons_eq]
    cases h : convertV ext hints e.2 ⟨e.1, st.currentHint⟩ (appendStringKey b e.1) with
    | error err => simp
    | ok p => simp [ih]

/-- Claim C5: ConvertStream writes nothing to the output on any error
(read, parse or conversion): the only Write happens after a fully
successful in-memory conversion.  And conversion aborts at the first
failing leaf: if a prefix of an array (or of a sorted object entry
list) converts successfully and the next element fails, the whole loop
returns exactly that first error, whatever elements follow. -/
theorem stream_abort_writes_nothing (ext : Externals) (hints : Hints) :
    (∀ (parseJSON : Bytes → Except Unit Value) (readResult : Except Unit Bytes),
      (ConvertStream ext hints parseJSON readResult).2.isSome = true →
      (ConvertStream ext hints parseJSON readResult).1 = []) ∧
    (∀ (pre : List Value) (bad : Value) (post : List Value) (st st' : CState)
        (b b' : Bytes) (e : ConvErr),
      convertArr ext hints pre st b = .ok (b', st') →
      convertV ext hints bad st' b' = .error e →
      convertArr ext hints (pre ++ bad :: post) st b = .error e) ∧
    (∀ (pre : List (String × Value)) (k : String) (bad : Value)
        (post : List (String × Value)) (st st' : CState) (b b' : Bytes) (e : ConvErr),
      convertEntries ext hints pre st b = .ok (b', st') →
      convertV ext hints bad ⟨k, st'.currentHint⟩ (appendStringKey b' k) = .error e →
      convertEntries ext hints (pre ++ (k, bad) :: post) st b = .error e) := by
  refine ⟨?_, ?_, ?_⟩
  · intro p r h
    cases r with
    | error e => simp only [ConvertStream]
    | ok bs =>
      cases hp : p bs with
      | error e => simp only [ConvertStream, hp]
      | ok v =>
        cases hc : Convert ext hints v with
        | error e => simp only [ConvertStream, hp, hc]
        | ok out =>
          simp only [ConvertStream, hp, hc] at h
          exact absurd h (by simp)
  · intro pre bad post st st' b b' e h1 h2
    rw [convertArr_append ext hints pre (bad :: post) st b, h1]
    show convertArr ext hints (bad :: post) st' b' = .error e
    rw [convertArr_cons_eq, h2]
  · intro pre k bad post st st' b b' e h1 h2
    rw [convertEntries_append ext hints pre ((k, bad) :: post) st b, h1]
    show convertEntries ext hints ((k, bad) :: post) st' b' = .error e
    rw [convertEntries_cons_eq, h2]

/-- Witness for C5: a failed read writes nothing; an array whose second
element is the non-integral 1/2 aborts with UnsupportedNumericValue;
the same value under a key aborts the entry loop. -/
theorem stream_abort_writes_nothing_witness :
    ((ConvertStream extNone [] (fun _ => .ok .null) (.error ())).1 = []) ∧
    (convertArr extNone [] ([.null] ++ .num (mkRat 1 2) :: [.bool true]) ⟨noTag, 0⟩ []
      = .error (.unsupportedNumericValue (mkRat 1 2))) ∧
    (convertEntries extNone [] ([] ++ (noTag, .num (mkRat 1 2)) :: []) ⟨noTag, 0⟩ []
      = .error (.unsupportedNumericValue (mkRat 1 2))) :=
  ⟨(stream_abort_writes_nothing extNone []).1 (fun _ => .ok .null) (.error ()) rfl,
   (stream_abort_writes_nothing extNone []).2.1 [.null] (.num (mkRat 1 2)) [.bool true]
     ⟨noTag, 0⟩ ⟨noTag, 1⟩ [] [0xc0] (.unsupportedNumericValue (mkRat 1 2))
     (by simp [convertArr_cons_eq, convertV_null_eq, convertArr_nil_eq])
     (by rw [convertV_num_nohint_eq extNone [] (mkRat 1 2) ⟨noTag, 1⟩ [0xc0] rfl]; decide),
   (stream_abort_writes_nothing extNone []).2.2 [] noTag (.num (mkRat 1 2)) []
     ⟨noTag, 0⟩ ⟨noTag, 0⟩ [] [] (.unsupportedNumericValue (mkRat 1 2))
     (convertEntries_nil_eq extNone [] ⟨noTag, 0⟩ [])
     (by rw [convertV_num_nohint_eq extNone [] (mkRat 1 2) ⟨noTag, 0⟩
         (appendStringKey [] noTag) rfl]; decide)⟩

/-- AppendInt64 encodes 0..127 as a single positive-fixint byte. -/
theorem appendInt64_fixint (b : Bytes) (i : Int) (h0 : 0 ≤ i) (h1 : i ≤ 127) :
    appendInt64 b i = b ++ [i.toNat] := by
  unfold appendInt64
  rw [if_pos h0, if_pos h1]

/-- AppendUint64 encodes 0..127 as a single positive-fixint byte. -/
theorem appendUint64_fixint (b : Bytes) (u : Nat) (h : u ≤ 127) :
    appendUint64 b u = b ++ [u] := by
  unfold appendUint64
  rw [if_pos h]

/-- Unsigned wrap is the identity on values inside the width. -/
theorem wrapU_id (w : Nat) (i : Int) (h0 : 0 ≤ i) (h1 : i < 2 ^ w) :
    wrapU w i = i.toNat := by
  unfold wrapU
  have h3 : i.emod (2 ^ w) = i := Int.emod_eq_of_lt h0 h1
  rw [h3]

/-- Signed wrap is the identity on values inside the positive half of
the width. -/
theorem wrapS_id (w : Nat) (hw : 1 ≤ w) (i : Int) (h0 : 0 ≤ i) (h1 : i < 2 ^ (w - 1)) :
    wrapS w i = i := by
  unfold wrapS
  have h2 : (2 : Int) ^ (w - 1) + 2 ^ (w - 1) = 2 ^ w := by
    rw [← two_mul, ← pow_succ']
    congr 1
    omega
  have hnn : (0 : Int) ≤ 2 ^ (w - 1) := by positivity
  have h3 : (i + 2 ^ (w - 1)).emod (2 ^ w) = i + 2 ^ (w - 1) :=
    Int.emod_eq_of_lt (by omega) (by omega)
  rw [h3]
  omega

/-- The int64 cast is exact on small nonnegative truncations. -/
theorem f2i64_small (x : ℚ) (h0 : 0 ≤ ratTrunc x) (h1 : ratTrunc x < 128) :
    f2i64 x = ratTrunc x := by
  unfold f2i64
  rw [if_pos ⟨by omega, by omega⟩]

/-- The uint64 cast is exact on small nonnegative truncations. -/
theorem f2u64_small (x : ℚ) (h0 : 0 ≤ ratTrunc x) (h1 : ratTrunc x < 128) :
    f2u64 x = (ratTrunc x).toNat := by
  unfold f2u64
  rw [if_pos ⟨h0, by omega⟩]

/-- Counterexample to C6 as stated: the value 0 hinted as uint64 is
emitted as the single positive-fixint byte 0x00, not as the nine-byte
fixed uint64 encoding 0xcf + 8 payload bytes — the hinted width does
not force the encoded width. -/
theorem hint_width_counterexample :
    convertV extNone [("k", ["uint64"])] (.num 0) ⟨"k", 0⟩ [] = .ok ([0x00], ⟨"k", 0⟩) ∧
    ([0x00] : Bytes) ≠ [0xcf, 0x00, 0x00, 0x00, 0x00, 0x00, 0x00, 0x00, 0x00] := by
  constructor
  · rw [convertV_num_hint_eq extNone [("k", ["uint64"])] 0 ⟨"k", 0⟩ [] ["uint64"]
      (by decide) (by decide)]
    decide
  · decide

/-- Claim C6 as amended: a fixed-width hint selects the Go type the
value is cast to, but the emitted integer encoding is the minimal-width
canonical MessagePack encoding of the cast value — every integer-family
tag encodes a value with truncation in 0..127 as one positive-fixint
byte, narrower than the hinted width whenever the hinted width is
larger; only the float32/float64 hints emit a fixed-width marker (0xca
/ 0xcb) with the IEEE-754 payload regardless of the value. -/
theorem hint_minimal_width_amended (ext : Externals) (k : String) (x : ℚ) (b : Bytes) :
    (∀ tag, tag ∈ intHintTags → 0 ≤ ratTrunc x → ratTrunc x < 128 →
      encodeHinted ext k tag x b = .ok (b ++ [(ratTrunc x).toNat])) ∧
    (encodeHinted ext k tagFloat32 x b = .ok (b ++ 0xca :: ext.f32bits x)) ∧
    (encodeHinted ext k tagFloat64 x b = .ok (b ++ 0xcb :: ext.f64bits x)) := by
  refine ⟨?_, rfl, rfl⟩
  intro tag htag h0 h1
  have hf : f2i64 x = ratTrunc x := f2i64_small x h0 h1
  have hu8 : wrapU 8 (ratTrunc x) = (ratTrunc x).toNat :=
    wrapU_id 8 _ h0 (lt_of_lt_of_le h1 (by norm_num))
  have hu16 : wrapU 16 (ratTrunc x) = (ratTrunc x).toNat :=
    wrapU_id 16 _ h0 (lt_of_lt_of_le h1 (by norm_num))
  have hu32 : wrapU 32 (ratTrunc x) = (ratTrunc x).toNat :=
    wrapU_id 32 _ h0 (lt_of_lt_of_le h1 (by norm_num))
  have hs8 : wrapS 8 (ratTrunc x) = ratTrunc x :=
    wrapS_id 8 (by norm_num) _ h0 (lt_of_lt_of_le h1 (by norm_num))
  have hs16 : wrapS 16 (ratTrunc x) = ratTrunc x :=
    wrapS_id 16 (by norm_num) _ h0 (lt_of_lt_of_le h1 (by norm_num))
  have hs32 : wrapS 32 (ratTrunc x) = ratTrunc x :=
    wrapS_id 32 (by norm_num) _ h0 (lt_of_lt_of_le h1 (by norm_num))
  have hfu : f2u64 x = (ratTrunc x).toNat := f2u64_small x h0 h1
  have hai : appendInt64 b (ratTrunc x) = b ++ [(ratTrunc x).toNat] :=
    appendInt64_fixint b _ h0 (by omega)
  have hau : appendUint64 b (ratTrunc x).toNat = b ++ [(ratTrunc x).toNat] :=
    appendUint64_fixint b _ (by omega)
  simp only [intHintTags, List.mem_cons, List.not_mem_nil, or_false] at htag
  rcases htag with rfl | rfl | rfl | rfl | rfl | rfl | rfl | rfl | rfl | rfl | rfl
  all_goals simp [encodeHinted, hf, hu8, hu16, hu32, hs8, hs16, hs32, hfu, hai, hau]

/-- Witness for C6 as amended: a uint64 hint on the value 0 yields the
single byte 0x00. -/
theorem hint_minimal_width_amended_witness :
    encodeHinted extNone noTag ("uint64") 0 [] = .ok ([] ++ [(ratTrunc 0).toNat]) :=
  (hint_minimal_width_amended extNone noTag 0 []).1 ("uint64") (by decide) (by decide) (by decide)

/-- A successful quantum decode consumes a multiple of four characters. -/
theorem b64quanta_length : ∀ (cs : Bytes) (bs : Bytes), b64quanta cs = some bs →
    cs.length % 4 = 0
  | [], _, _ => rfl
  | [_], _, h => by simp [b64quanta] at h
  | [_, _], _, h => by simp [b64quanta] at h
  | [_, _, _], _, h => by simp [b64quanta] at h
  | c0 :: c1 :: c2 :: c3 :: rest, bs, h => by
    rw [b64quanta] at h
    cases hv0 : b64val c0 with
    | none => rw [hv0] at h; cases h
    | some v0 =>
    cases hv1 : b64val c1 with
    | none => rw [hv0, hv1] at h; cases h
    | some v1 =>
    rw [hv0, hv1] at h
    simp only [] at h
    by_cases hc2 : c2 = 61
    · rw [if_pos hc2] at h
      by_cases hcr : c3 = 61 ∧ rest = []
      · obtain ⟨_, hrest⟩ := hcr
        subst hrest
        simp
      · rw [if_neg hcr] at h; cases h
    · rw [if_neg hc2] at h
      cases hv2 : b64val c2 with
      | none => rw [hv2] at h; cases h
      | some v2 =>
      rw [hv2] at h
      simp only [] at h
      by_cases hc3 : c3 = 61
      · rw [if_pos hc3] at h
        by_cases hrest : rest = []
        · subst hrest; simp
        · rw [if_neg hrest] at h; cases h
      · rw [if_neg hc3] at h
        cases hv3 : b64val c3 with
        | none => rw [hv3] at h; cases h
        | some v3 =>
        rw [hv3] at h
        simp only [] at h
        cases hq : b64quanta rest with
        | none => rw [hq] at h; cases h
        | some bs' =>
          have := b64quanta_length rest bs' hq
          simp only [List.length_cons]
          omega

/-- A character outside the alphabet that is not padding (and not a
skipped newline) makes the quantum decoder fail. -/
theorem b64quanta_badchar : ∀ cs : Bytes, (∃ c ∈ cs, b64val c = none ∧ c ≠ 61) →
    b64quanta cs = none
  | [], h => by simp at h
  | [_], _ => by simp [b64quanta]
  | [_, _], _ => by simp [b64quanta]
  | [_, _, _], _ => by simp [b64quanta]
  | c0 :: c1 :: c2 :: c3 :: rest, h => by
    obtain ⟨c, hc, hval, hne⟩ := h
    rw [b64quanta]
    rcases List.mem_cons.mp hc with rfl | hc1
    · rw [hval]
    · rcases List.mem_cons.mp hc1 with rfl | hc2
      · cases b64val c0 with
        | none => rfl
        | some v0 => rw [hval]
      · cases hv0 : b64val c0 with
        | none => rfl
        | some v0 =>
        cases hv1 : b64val c1 with
        | none => rfl
        | some v1 =>
        simp only []
        rcases List.mem_cons.mp hc2 with rfl | hc3
        · rw [if_neg hne, show b64val c = none from hval]
        · by_cases hp2 : c2 = 61
          · rw [if_pos hp2]
            rcases List.mem_cons.mp hc3 with rfl | hc4
            · have : ¬ (c = 61 ∧ rest = []) := fun ⟨hcc, _⟩ => hne hcc
              rw [if_neg this]
            · have : ¬ (c3 = 61 ∧ rest = []) := by
                rintro ⟨_, hrest⟩
                subst hrest
                simp at hc4
              rw [if_neg this]
          · rw [if_neg hp2]
            cases hv2 : b64val c2 with
            | none => rfl
            | some v2 =>
            simp only []
            rcases List.mem_cons.mp hc3 with rfl | hc4
            · rw [if_neg hne, show b64val c = none from hval]
            · by_cases hp3 : c3 = 61
              · rw [if_pos hp3]
                have hrest : rest ≠ [] := fun hr => by
                  subst hr
                  simp at hc4
                rw [if_neg hrest]
              · rw [if_neg hp3]
                cases hv3 : b64val c3 with
                | none => rfl
                | some v3 =>
                simp only []
                rw [b64quanta_badchar rest ⟨c, hc4, hval, hne⟩]
                rfl

/-- The standard decoder rejects any string containing a character
outside the alphabet that is not '=' and not CR/LF — in particular the
URL-safe alphabet characters '-' and '_'. -/
theorem base64DecodeStd_badchar (s : Bytes) (c : Nat) (hc : c ∈ s) (hval : b64val c = none)
    (h61 : c ≠ 61) (h13 : c ≠ 13) (h10 : c ≠ 10) : base64DecodeStd s = none := by
  unfold base64DecodeStd
  apply b64quanta_badchar
  refine ⟨c, List.mem_filter.mpr ⟨hc, ?_⟩, hval, h61⟩
  simp [h13, h10]

/-- The standard decoder rejects any string whose length after newline
removal is not a multiple of four — in particular non-padded base64. -/
theorem base64DecodeStd_badlen (s : Bytes)
    (h : ¬ (s.filter (fun c => c != 13 && c != 10)).length % 4 = 0) :
    base64DecodeStd s = none := by
  unfold base64DecodeStd
  cases hb : b64quanta (s.filter (fun c => c != 13 && c != 10)) with
  | none => rfl
  | some bs => exact absurd (b64quanta_length _ bs hb) h

/-- Counterexample to C7 as stated: "Dx==" (bytes 68 120 61 61) is
accepted by Go's default (non-strict) standard decoder even though its
trailing bits are non-canonical — it decodes to [0x0f] but re-encodes
to "Dw==", so it does NOT round-trip — and the heuristic still emits
the decoded byte blob, not a string. -/
theorem base64_roundtrip_counterexample :
    base64DecodeStd [68, 120, 61, 61] = some [0x0f] ∧
    base64EncodeStd [0x0f] ≠ [68, 120, 61, 61] ∧
    utf8ValidString [68, 120, 61, 61] = true ∧
    stringHeuristic extNone [68, 120, 61, 61] [] = appendBytesBin [] [0x0f] ∧
    appendBytesBin [] [0x0f] ≠ appendStringBytes [] [68, 120, 61, 61] := by
  decide

/-- Claim C7 as amended: for a valid-UTF-8 string rejected by the
identifier validator, the byte-blob branch fires exactly when the
permissive standard padded decoder accepts the string (standard
alphabet, '=' padding completing the final quantum, length a multiple
of four after CR/LF removal, trailing-bit canonicity NOT required), and
then the blob holds the decoded bytes; strings the decoder rejects —
any character outside the standard alphabet other than '='/CR/LF (in
particular URL-safe '-' and '_'), or a length that is not a multiple of
four (in particular non-padded base64) — are emitted as strings. -/
theorem base64_blob_amended (ext : Externals) (s b : Bytes)
    (h1 : utf8ValidString s = true) (h2 : ext.validID s = false) :
    (∀ bs, base64DecodeStd s = some bs → stringHeuristic ext s b = appendBytesBin b bs) ∧
    (base64DecodeStd s = none → stringHeuristic ext s b = appendStringBytes b s) ∧
    (∀ c, c ∈ s → b64val c = none → c ≠ 61 → c ≠ 13 → c ≠ 10 →
      stringHeuristic ext s b = appendStringBytes b s) ∧
    (¬ (s.filter (fun c => c != 13 && c != 10)).length % 4 = 0 →
      stringHeuristic ext s b = appendStringBytes b s) := by
  refine ⟨fun bs h3 => by simp [stringHeuristic, h1, h2, h3],
          fun h3 => by simp [stringHeuristic, h1, h2, h3], ?_, ?_⟩
  · intro c hc hval h61 h13 h10
    have h3 := base64DecodeStd_badchar s c hc hval h61 h13 h10
    simp [stringHeuristic, h1, h2, h3]
  · intro hlen
    have h3 := base64DecodeStd_badlen s hlen
    simp [stringHeuristic, h1, h2, h3]

/-- Witness for C7 as amended: "DwA=" decodes to the blob [0x0f, 0x00];
"foo" (length 3, no padding) stays a string; the URL-safe text "Dw-="
(containing '-') stays a string. -/
theorem base64_blob_amended_witness :
    (stringHeuristic extNone [68, 119, 65, 61] [] = appendBytesBin [] [0x0f, 0x00]) ∧
    (stringHeuristic extNone [102, 111, 111] [] = appendStringBytes [] [102, 111, 111]) ∧
    (stringHeuristic extNone [68, 119, 45, 61] [] = appendStringBytes [] [68, 119, 45, 61]) :=
  ⟨(base64_blob_amended extNone [68, 119, 65, 61] [] (by decide) (by decide)).1
      [0x0f, 0x00] (by decide),
   (base64_blob_amended extNone [102, 111, 111] [] (by decide) (by decide)).2.2.2 (by decide),
   (base64_blob_amended extNone [68, 119, 45, 61] [] (by decide) (by decide)).2.2.1
      45 (by decide) (by decide) (by decide) (by decide) (by decide)⟩

/-- Every enumerated tag makes the hinted switch succeed. -/
theorem encodeHinted_valid (ext : Externals) (k tag : String) (x : ℚ) (b : Bytes)
    (h : tag ∈ validTags) : ∃ b', encodeHinted ext k tag x b = .ok b' := by
  simp only [validTags, List.mem_cons, List.not_mem_nil, or_false] at h
  rcases h with rfl | rfl | rfl | rfl | rfl | rfl | rfl | rfl | rfl | rfl | rfl | rfl | rfl
  all_goals exact ⟨_, rfl⟩

/-- A tag outside the enumeration makes the hinted switch fail with
UnsupportedTypeHint carrying the key and the tag — its only error. -/
theorem encodeHinted_invalid (ext : Externals) (k tag : String) (x : ℚ) (b : Bytes)
    (h : tag ∉ validTags) :
    encodeHinted ext k tag x b = .error (.unsupportedTypeHint k tag) := by
  simp only [validTags, List.mem_cons, List.not_mem_nil, or_false, not_or] at h
  unfold encodeHinted
  split
  all_goals simp_all

/-- Claim C8: when the hint lookup selects a tag that is not one of the
enumerated type tags, conversion fails with UnsupportedTypeHint
carrying the current key and the offending tag; when the tag is
enumerated, the hinted branch succeeds — UnsupportedTypeHint is the
only error the hinted branch can produce. -/
theorem unsupported_hint_error (ext : Externals) (hints : Hints) (x : ℚ) (st : CState)
    (b : Bytes) (seq : List String)
    (hlk : List.lookup st.currentKey hints = some seq) (hne : ¬ seq.length = 0) :
    (seq.getD (st.currentHint % seq.length) noTag ∉ validTags →
      convertV ext hints (.num x) st b
        = .error (.unsupportedTypeHint st.currentKey
            (seq.getD (st.currentHint % seq.length) noTag))) ∧
    (seq.getD (st.currentHint % seq.length) noTag ∈ validTags →
      ∃ b', convertV ext hints (.num x) st b = .ok (b', st)) := by
  constructor
  · intro h
    rw [convertV_num_hint_eq ext hints x st b seq hlk hne,
      encodeHinted_invalid ext st.currentKey _ x b h]
  · intro h
    obtain ⟨b', hb⟩ := encodeHinted_valid ext st.currentKey
      (seq.getD (st.currentHint % seq.length) noTag) x b h
    rw [convertV_num_hint_eq ext hints x st b seq hlk hne, hb]
    exact ⟨b', rfl⟩

/-- Witness for C8: an unrecognized tag "frob" fails with
UnsupportedTypeHint; the recognized tag "int64" succeeds. -/
theorem unsupported_hint_error_witness :
    (convertV extNone [(noTag, ["frob"])] (.num 3) ⟨noTag, 0⟩ []
      = .error (.unsupportedTypeHint (⟨noTag, 0⟩ : CState).currentKey
          (List.getD ["frob"] ((⟨noTag, 0⟩ : CState).currentHint % List.length ["frob"]) noTag))) ∧
    (∃ b', convertV extNone [(noTag, ["int64"])] (.num 3) ⟨noTag, 0⟩ []
      = .ok (b', ⟨noTag, 0⟩)) :=
  ⟨(unsupported_hint_error extNone [(noTag, ["frob"])] 3 ⟨noTag, 0⟩ [] ["frob"]
      (by decide) (by decide)).1 (by decide),
   (unsupported_hint_error extNone [(noTag, ["int64"])] 3 ⟨noTag, 0⟩ [] ["int64"]
      (by decide) (by decide)).2 (by decide)⟩

/-- The hinted switch never raises the division fault itself. -/
theorem encodeHinted_ne_fault (ext : Externals) (k tag : String) (x : ℚ) (b : Bytes) :
    encodeHinted ext k tag x b ≠ .error .modByZeroFault := by
  unfold encodeHinted
  split
  all_goals simp

/-- Joint size-bounded induction: if every hint sequence in the table is
non-empty, no part of the conversion can reach the modulo-by-zero
fault. -/
theorem no_fault_aux (ext : Externals) (hints : Hints)
    (H : ∀ p ∈ hints, p.2 ≠ ([] : List String)) :
    ∀ n : Nat,
      (∀ (v : Value) (st : CState) (b : Bytes), sizeOf v ≤ n →
        convertV ext hints v st b ≠ .error .modByZeroFault) ∧
      (∀ (vs : List Value) (st : CState) (b : Bytes), sizeOf vs ≤ n →
        convertArr ext hints vs st b ≠ .error .modByZeroFault) ∧
      (∀ (m : List (String × Value)) (st : CState) (b : Bytes), sizeOf m ≤ n →
        convertEntries ext hints m st b ≠ .error .modByZeroFault) := by
  intro n
  induction n using Nat.strong_induction_on with
  | _ n ih =>
    refine ⟨?_, ?_, ?_⟩
    · intro v st b hsz
      cases v with
      | null => rw [convertV_null_eq]; simp
      | bool v => rw [convertV_bool_eq]; simp
      | str s => rw [convertV_str_eq]; simp
      | strMap m => rw [convertV_strMap_eq]; simp
      | num x =>
        cases hlk : List.lookup st.currentKey hints with
        | none =>
          rw [convertV_num_nohint_eq ext hints x st b hlk]
          split <;> simp
        | some seq =>
          have hseq : seq ≠ [] := H (st.currentKey, seq) (lookup_mem _ _ hints hlk)
          have hne : ¬ seq.length = 0 := fun h0 => hseq (List.length_eq_zero.mp h0)
          rw [convertV_num_hint_eq ext hints x st b seq hlk hne]
          cases he : encodeHinted ext st.currentKey
              (seq.getD (st.currentHint % seq.length) noTag) x b with
          | ok b' => simp
          | error e =>
            have hno := encodeHinted_ne_fault ext st.currentKey
              (seq.getD (st.currentHint % seq.length) noTag) x b
            rw [he] at hno
            have he2 : e ≠ .modByZeroFault := fun hc => hno (by rw [hc])
            simp [he2]
      | arr vs =>
        have hlt : sizeOf vs < n := by
          have : sizeOf (Value.arr vs) = 1 + sizeOf vs := by simp
          omega
        rw [convertV_arr_eq]
        exact (ih (sizeOf vs) hlt).2.1 vs _ _ le_rfl
      | obj m =>
        have hlt : sizeOf m < n := by
          have : sizeOf (Value.obj m) = 1 + sizeOf m := by simp
          omega
        rw [convertV_obj_eq]
        exact (ih (sizeOf m) hlt).2.2 (List.insertionSort keyLe m) _ _
          (le_of_eq (List.perm_insertionSort keyLe m).sizeOf_eq_sizeOf)
    · intro vs st b hsz
      cases vs with
      | nil => rw [convertArr_nil_eq]; simp
      | cons v rest =>
        have hszc : sizeOf (v :: rest) = 1 + sizeOf v + sizeOf rest := by simp
        rw [convertArr_cons_eq]
        cases hcv : convertV ext hints v st b with
        | error e =>
          have hv := (ih (sizeOf v) (by omega)).1 v st b le_rfl
          rw [hcv] at hv
          have he2 : e ≠ .modByZeroFault := fun hc => hv (by rw [hc])
          simp [he2]
        | ok p =>
          exact (ih (sizeOf rest) (by omega)).2.1 rest _ _ le_rfl
    · intro m st b hsz
      cases m with
      | nil => rw [convertEntries_nil_eq]; simp
      | cons e rest =>
        have hszc : sizeOf (e :: rest) = 1 + sizeOf e + sizeOf rest := by simp
        have hszv : sizeOf e = 1 + sizeOf e.1 + sizeOf e.2 := by
          cases e; simp
        rw [show e = (e.1, e.2) from rfl, convertEntries_cons_eq]
        cases hcv : convertV ext hints e.2 ⟨e.1, st.currentHint⟩ (appendStringKey b e.1) with
        | error err =>
          have hv := (ih (sizeOf e.2) (by omega)).1 e.2 ⟨e.1, st.currentHint⟩
            (appendStringKey b e.1) le_rfl
          rw [hcv] at hv
          have he2 : err ≠ .modByZeroFault := fun hc => hv (by rw [hc])
          simp [he2]
        | ok p =>
          exact (ih (sizeOf rest) (by omega)).2.2 rest _ _ le_rfl

/-- Claim C9: when every sequence in the hint table is non-empty, the
cyclic index currentHint mod length(sequence) is well defined and the
conversion can never reach the modulo-by-zero fault; but when the
sequence found for the current key is empty, the numeric case performs
a modulo by zero (a runtime fault) instead of returning an error
value. -/
theorem hint_mod_safety (ext : Externals) (hints : Hints) :
    ((∀ p ∈ hints, p.2 ≠ ([] : List String)) →
      ∀ (v : Value) (st : CState) (b : Bytes),
        convertV ext hints v st b ≠ .error .modByZeroFault) ∧
    (∀ (x : ℚ) (st : CState) (b : Bytes),
      List.lookup st.currentKey hints = some [] →
      convertV ext hints (.num x) st b = .error .modByZeroFault) := by
  constructor
  · intro H v st b
    exact (no_fault_aux ext hints H (sizeOf v)).1 v st b le_rfl
  · intro x st b hlk
    exact convertV_num_fault_eq ext hints x st b hlk

/-- Witness for C9: with the non-empty table {"": ["int64"]} the
conversion of a number cannot fault; with the empty-sequence table
{"": []} it faults. -/
theorem hint_mod_safety_witness :
    (convertV extNone [(noTag, ["int64"])] (.num 3) ⟨noTag, 0⟩ []
      ≠ .error .modByZeroFault) ∧
    (convertV extNone [(noTag, [])] (.num 3) ⟨noTag, 0⟩ [] = .error .modByZeroFault) :=
  ⟨(hint_mod_safety extNone [(noTag, ["int64"])]).1 (by decide) (.num 3) ⟨noTag, 0⟩ [],
   (hint_mod_safety extNone [(noTag, [])]).2 3 ⟨noTag, 0⟩ [] (by decide)⟩

/-- Lifting string-map entries to generic values commutes with ordered
insertion (the comparison only reads the key, which the lift
preserves). -/
theorem orderedInsert_map_str (e : String × Bytes) :
    ∀ l : List (String × Bytes),
      (List.orderedInsert keyLe e l).map (fun p => (p.1, Value.str p.2))
        = List.orderedInsert keyLe (e.1, Value.str e.2)
            (l.map (fun p => (p.1, Value.str p.2))) := by
  intro l
  induction l with
  | nil => simp [List.orderedInsert]
  | cons a t ih =>
    by_cases h : keyLe e a
    · have h' : keyLe (e.1, Value.str e.2) (a.1, Value.str a.2) := h
      simp [List.orderedInsert, h, h']
    · have h' : ¬ keyLe (e.1, Value.str e.2) (a.1, Value.str a.2) := h
      simp [List.orderedInsert, h, h', ih]

/-- Lifting string-map entries to generic values commutes with the key
sort. -/
theorem insertionSort_map_str :
    ∀ m : List (String × Bytes),
      List.insertionSort keyLe (m.map (fun p => (p.1, Value.str p.2)))
        = (List.insertionSort keyLe m).map (fun p => (p.1, Value.str p.2)) := by
  intro m
  induction m with
  | nil => simp [List.insertionSort]
  | cons e t ih =>
    simp only [List.map_cons, List.insertionSort, ih, orderedInsert_map_str]

/-- The generic entry loop on string leaves computes exactly the
convertMapStrStr fold: same key emission, same currentKey update, same
string classification, and it cannot fail. -/
theorem convertEntries_str_eq_fold (ext : Externals) (hints : Hints) :
    ∀ (l : List (String × Bytes)) (st : CState) (b : Bytes),
      convertEntries ext hints (l.map (fun p => (p.1, Value.str p.2))) st b
        = .ok (l.foldl (fun acc e =>
            (stringHeuristic ext e.2 (appendStringKey acc.1 e.1),
             { acc.2 with currentKey := e.1 })) (b, st)) := by
  intro l
  induction l with
  | nil => intro st b; simp [convertEntries_nil_eq]
  | cons e t ih =>
    intro st b
    rw [List.map_cons, convertEntries_cons_eq, convertV_str_eq]
    simp only [ih, List.foldl_cons]

/-- Claim C10: converting a string map through the specialized
map[string]string path produces exactly the bytes and state of
converting the same logical map as a generic object of string leaves:
same map header, same sorted key order, same per-entry currentKey
update, same string classification. -/
theorem strmap_obj_refinement (ext : Externals) (hints : Hints) (m : List (String × Bytes))
    (st : CState) (b : Bytes) :
    convertV ext hints (.obj (m.map (fun p => (p.1, Value.str p.2)))) st b
      = .ok (convertMapStrStr ext m st b) := by
  rw [convertV_obj_eq, insertionSort_map_str, convertEntries_str_eq_fold]
  unfold convertMapStrStr
  rw [List.length_map]
